import Mathlib

/-!
Shallow embedding of the customer-segmentation core of the repository:
the enhanced `KMeansService` (`src/app/kmeans.service.ts`, second service
in the file) and the RFM metric aggregator (`RFMCalculatorService` in
`src/app/rfm-calculator.service.ts`).  Everything lives in the `Seg`
namespace; within it the definitions keep the source's names.

Modelling conventions:
* JavaScript numbers are modelled as rationals (`ℚ`); timestamps
  (`Date.getTime()` values, milliseconds) as integers (`ℤ`).
* `Math.sqrt` appears in the source only inside `euclideanDistance`.
  Wherever the source immediately squares a distance again (WCSS, the
  k-means++ D² weights) or merely compares two distances
  (`assignClusters`), the computations below work with the squared
  Euclidean distance `euclideanDistanceSq`; the bridge lemmas
  `euclideanDistance_mul_self` and `euclideanDistance_lt_iff` prove that
  this agrees with the source's `Math.sqrt`-based arithmetic, so those
  definitions stay computable.  The silhouette computation genuinely
  averages and divides square roots, so it is real-valued (`ℝ`).
* JavaScript `NaN` (the silhouette's 0/0) and `Infinity`
  (`Math.min()` of an empty spread) are modelled with `Option`:
  `none` stands for `NaN` in `silhouettePoint`/`calculateSilhouetteScore`
  and for `Infinity` in the intermediate minimum `minWithInf`.
* The `Math.random()` stream is an explicit deterministic state
  `Rand := ℕ → ℚ`; every function of the source that draws randomness
  takes and returns such a state.
-/

namespace Seg

/-- `RFMMetrics` record (`src/classes/RFM.ts`). -/
structure RFMMetrics where
  user_id : String
  recency : ℚ
  frequency : ℚ
  monetary : ℚ
  rfm_score : String
deriving DecidableEq

/-- Default record used to state `List.getD` lookups. -/
def mDflt : RFMMetrics := ⟨"", 0, 0, 0, ""⟩

/-- The deterministic model of the `Math.random()` stream. -/
def Rand : Type := ℕ → ℚ

/-- One `Math.random()` call: the drawn value and the advanced stream. -/
def randDraw (r : Rand) : ℚ × Rand := (r 0, fun n => r (n + 1))

/-- `Math.min(...values)` over a non-empty argument list (every call site
of the source spreads a non-empty array; `[]` is given an arbitrary
default, never reached from the embedded call sites). -/
def listMin : List ℚ → ℚ
  | [] => 0
  | x :: xs => xs.foldl min x

/-- `Math.max(...values)`, same conventions as `listMin`. -/
def listMax : List ℚ → ℚ
  | [] => 0
  | x :: xs => xs.foldl max x

/-- `normalize(value, min, max)` of `KMeansService`:
`max === min ? 0 : (value - min) / (max - min)`. -/
def normalize (value minV maxV : ℚ) : ℚ :=
  if maxV = minV then 0 else (value - minV) / (maxV - minV)

/-- `normalizeData(metrics)` of `KMeansService`: per-axis min-max scaling
over the whole record set. -/
def normalizeData (metrics : List RFMMetrics) : List (List ℚ) :=
  let recencyValues := metrics.map (·.recency)
  let frequencyValues := metrics.map (·.frequency)
  let monetaryValues := metrics.map (·.monetary)
  metrics.map (fun metric =>
    [normalize metric.recency (listMin recencyValues) (listMax recencyValues),
     normalize metric.frequency (listMin frequencyValues) (listMax frequencyValues),
     normalize metric.monetary (listMin monetaryValues) (listMax monetaryValues)])

-- ### Euclidean distance

/-- The radicand of the source's `euclideanDistance`:
`point1.reduce((sum, val, index) => sum + Math.pow(val - point2[index], 2), 0)`. -/
def euclideanDistanceSq (point1 point2 : List ℚ) : ℚ :=
  (List.range point1.length).foldl
    (fun sum index => sum + (point1.getD index 0 - point2.getD index 0) ^ 2) 0

/-- `euclideanDistance(point1, point2)` of `KMeansService`: `Math.sqrt` of the
sum of squared coordinate differences. -/
noncomputable def euclideanDistance (point1 point2 : List ℚ) : ℝ :=
  Real.sqrt (euclideanDistanceSq point1 point2)

-- ### Cluster assignment

/-- The scan inside `assignClusters` for one point: centroids are visited in
index order, `minDistance` starts at `Infinity` (modelled by the `none`
start: the first centroid always replaces it), and the closest index is
replaced only on strict improvement (`distance < minDistance`).  Squared
distances are compared; by `euclideanDistance_lt_iff` this picks the same
index as the source's square roots. -/
def closestCentroid (point : List ℚ) (centroids : List (List ℚ)) : ℕ :=
  (centroids.foldl
    (fun (st : Option ℚ × ℕ × ℕ) centroid =>
      let minDistance := st.1
      let closest := st.2.1
      let index := st.2.2
      let distance := euclideanDistanceSq point centroid
      match minDistance with
      | none => (some distance, index, index + 1)
      | some m =>
        if distance < m then (some distance, index, index + 1)
        else (some m, closest, index + 1))
    (none, 0, 0)).2.1

/-- `assignClusters(data, centroids)` of `KMeansService`. -/
def assignClusters (data centroids : List (List ℚ)) : List ℕ :=
  data.map (fun point => closestCentroid point centroids)

-- ### Centroid update

/-- The points of `data` assigned to cluster `i`:
`data.filter((_, index) => clusters[index] === i)`. -/
def pointsOfCluster (data : List (List ℚ)) (clusters : List ℕ) (i : ℕ) : List (List ℚ) :=
  (data.zip clusters).filterMap (fun pc => if pc.2 = i then some pc.1 else none)

/-- The non-empty branch of `updateCentroids`:
`clusterPoints[0].map((_, dimIndex) => clusterPoints.reduce((sum, point) =>
sum + point[dimIndex], 0) / clusterPoints.length)`. -/
def centroidMean (clusterPoints : List (List ℚ)) : List ℚ :=
  match clusterPoints with
  | [] => []
  | p0 :: _ =>
    (List.range p0.length).map (fun dimIndex =>
      (clusterPoints.foldl (fun sum point => sum + point.getD dimIndex 0) 0) /
        clusterPoints.length)

/-- The `for (let i = 0; i < k; i++)` body of `updateCentroids`, threading
the random stream: an empty cluster is reseeded with three `Math.random()`
draws. -/
def updateCentroidsGo (data : List (List ℚ)) (clusters : List ℕ) :
    List ℕ → Rand → List (List ℚ) × Rand
  | [], rng => ([], rng)
  | i :: is, rng =>
    let clusterPoints := pointsOfCluster data clusters i
    if clusterPoints.isEmpty then
      let d0 := randDraw rng
      let d1 := randDraw d0.2
      let d2 := randDraw d1.2
      let rest := updateCentroidsGo data clusters is d2.2
      ([d0.1, d1.1, d2.1] :: rest.1, rest.2)
    else
      let rest := updateCentroidsGo data clusters is rng
      (centroidMean clusterPoints :: rest.1, rest.2)

/-- `updateCentroids(data, clusters, k)` of `KMeansService`. -/
def updateCentroids (data : List (List ℚ)) (clusters : List ℕ) (k : ℕ) (rng : Rand) :
    List (List ℚ) × Rand :=
  updateCentroidsGo data clusters (List.range k) rng

-- ### Convergence test

/-- `centroidsConverged(current, previous, threshold)` of `KMeansService`:
`false` while `previous` is still `[]`, otherwise every coordinate of every
centroid must have moved less than `threshold`. -/
def centroidsConverged (current previous : List (List ℚ)) (threshold : ℚ) : Bool :=
  if previous.isEmpty then false
  else
    (List.range current.length).all (fun index =>
      (List.range (current.getD index []).length).all (fun dimIndex =>
        decide (|(current.getD index []).getD dimIndex 0 -
          (previous.getD index []).getD dimIndex 0| < threshold)))

-- ### k-means++ initialization

/-- The k-means++ D² weight of a point: the source computes
`Math.min(...centroids.map(c => euclideanDistance(point, c)))` and squares
it; the square of the minimum of square roots of non-negative numbers is
the minimum of the numbers themselves (`Real.sqrt` is monotone), so the
weight is the minimum squared distance. -/
def distSqToNearestCentroid (point : List ℚ) (centroids : List (List ℚ)) : ℚ :=
  listMin (centroids.map (fun centroid => euclideanDistanceSq point centroid))

/-- The cumulative-weight scan of `initializeCentroidsKMeansPlusPlus`: the
first index whose running total reaches `randomValue`
(`cumulativeDistance >= randomValue` triggers the `break`), `none` when the
scan falls through without triggering. -/
def pickIndexGo : List ℚ → ℚ → ℚ → ℕ → Option ℕ
  | [], _, _, _ => none
  | d :: ds, cumulative, randomValue, j =>
    if randomValue ≤ cumulative + d then some j
    else pickIndexGo ds (cumulative + d) randomValue (j + 1)

/-- The `for (let i = 1; i < k; i++)` loop of
`initializeCentroidsKMeansPlusPlus`, one D²-weighted draw per iteration. -/
def kmppGo (data : List (List ℚ)) : ℕ → List (List ℚ) → Rand → List (List ℚ) × Rand
  | 0, centroids, rng => (centroids, rng)
  | n + 1, centroids, rng =>
    let distances := data.map (fun point => distSqToNearestCentroid point centroids)
    let totalDistance := distances.foldl (· + ·) 0
    let draw := randDraw rng
    let randomValue := draw.1 * totalDistance
    match pickIndexGo distances 0 randomValue 0 with
    | some j => kmppGo data n (centroids ++ [data.getD j []]) draw.2
    | none => kmppGo data n centroids draw.2

/-- `initializeCentroidsKMeansPlusPlus(data, k)` of `KMeansService`: first
centroid uniformly at random (`Math.floor(Math.random() * data.length)`),
the remaining `k - 1` by D²-weighted sampling. -/
def initializeCentroidsKMeansPlusPlus (data : List (List ℚ)) (k : ℕ) (rng : Rand) :
    List (List ℚ) × Rand :=
  let draw := randDraw rng
  let firstIndex := (Int.floor (draw.1 * data.length)).toNat
  kmppGo data (k - 1) [data.getD firstIndex []] draw.2

-- ### The main k-means loop (`runKMeansAlgorithm`)

/-- `maxIterations = 100` of `runKMeansAlgorithm`. -/
def maxIterations : ℕ := 100

/-- `convergenceThreshold = 0.0001` of `runKMeansAlgorithm`. -/
def convergenceThreshold : ℚ := 1 / 10000

/-- The mutable state of the `while` loop of `runKMeansAlgorithm`. -/
structure KMState where
  centroids : List (List ℚ)
  previous : List (List ℚ)
  iterations : ℕ
  rng : Rand

/-- One body iteration of the `while` loop: save the previous centroids,
assign points to their closest centroids, update the centroids, count the
iteration. -/
def kmeansStep (data : List (List ℚ)) (k : ℕ) (st : KMState) : KMState :=
  let clusters := assignClusters data st.centroids
  let upd := updateCentroids data clusters k st.rng
  ⟨upd.1, st.centroids, st.iterations + 1, upd.2⟩

/-- The `while (!converged && iterations < maxIterations)` loop, with the
remaining iteration budget as fuel (the loop starts at `iterations = 0`
with fuel `maxIterations`, so fuel exhaustion is exactly the
`iterations < maxIterations` bound of the source). -/
def kmeansLoop (data : List (List ℚ)) (k : ℕ) : ℕ → KMState → KMState
  | 0, st => st
  | fuel + 1, st =>
    if centroidsConverged st.centroids st.previous convergenceThreshold then st
    else kmeansLoop data k fuel (kmeansStep data k st)

/-- The state just before the loop of `runKMeansAlgorithm`: freshly seeded
centroids, `previousCentroids = []`, `iterations = 0`. -/
def kmInit (data : List (List ℚ)) (k : ℕ) (rng : Rand) : KMState :=
  let init := initializeCentroidsKMeansPlusPlus data k rng
  ⟨init.1, [], 0, init.2⟩

/-- The result record of `runKMeansAlgorithm`. -/
structure KMeansOut where
  centroids : List (List ℚ)
  clusters : List ℕ
  iterations : ℕ

/-- `runKMeansAlgorithm(normalizedData, k)` of `KMeansService`, also
returning the advanced random stream. -/
def runKMeansAlgorithm (data : List (List ℚ)) (k : ℕ) (rng : Rand) : KMeansOut × Rand :=
  let st := kmeansLoop data k maxIterations (kmInit data k rng)
  (⟨st.centroids, assignClusters data st.centroids, st.iterations⟩, st.rng)

-- ### Cluster statistics (`calculateClusterStatistics`)

/-- The cluster-statistics record pushed by `calculateClusterStatistics`. -/
structure ClusterStats where
  cluster_id : ℕ
  size : ℕ
  avgRecency : ℚ
  avgFrequency : ℚ
  avgMonetary : ℚ
deriving DecidableEq

/-- Default `ClusterStats` for `List.getD` lookups. -/
def csDflt : ClusterStats := ⟨0, 0, 0, 0, 0⟩

/-- `metrics.filter((_, index) => clusters[index] === i)`. -/
def metricsOfCluster (metrics : List RFMMetrics) (clusters : List ℕ) (i : ℕ) :
    List RFMMetrics :=
  (metrics.zip clusters).filterMap (fun mc => if mc.2 = i then some mc.1 else none)

/-- `calculateClusterStatistics(metrics, clusters, k)` of `KMeansService`:
per-cluster size and per-axis means in the original scale; an empty cluster
is recorded with size 0 and all averages 0. -/
def calculateClusterStatistics (metrics : List RFMMetrics) (clusters : List ℕ) (k : ℕ) :
    List ClusterStats :=
  (List.range k).map (fun i =>
    let clusterMetrics := metricsOfCluster metrics clusters i
    if clusterMetrics.isEmpty then ⟨i, 0, 0, 0, 0⟩
    else
      ⟨i, clusterMetrics.length,
        (clusterMetrics.foldl (fun sum m => sum + m.recency) 0) / clusterMetrics.length,
        (clusterMetrics.foldl (fun sum m => sum + m.frequency) 0) / clusterMetrics.length,
        (clusterMetrics.foldl (fun sum m => sum + m.monetary) 0) / clusterMetrics.length⟩)

-- ### Segment ranking (`rankClustersAndAssignLabels`)

/-- The ranked-cluster record (`ClusterCenter` interface of the source). -/
structure ClusterCenter where
  cluster_id : ℕ
  recency_center : ℚ
  frequency_center : ℚ
  monetary_center : ℚ
  segment_label : String
  rank : ℕ
  composite_score : ℚ
deriving DecidableEq

/-- `const segmentLabels = ['VIP', 'Loyal', 'Potential', 'Pay Attention']`. -/
def segmentLabels : List String := ["VIP", "Loyal", "Potential", "Pay Attention"]

/-- `recencyScore`: `cluster.avgRecency > 0 ? 1 / cluster.avgRecency : 1`. -/
def recencyScoreOf (cluster : ClusterStats) : ℚ :=
  if 0 < cluster.avgRecency then 1 / cluster.avgRecency else 1

/-- `composite_score = recencyScore·0.3 + frequencyScore·0.3 + monetaryScore·0.4`
with `frequencyScore = avgFrequency` and `monetaryScore = avgMonetary`. -/
def compositeScoreOf (cluster : ClusterStats) : ℚ :=
  recencyScoreOf cluster * (3 / 10) + cluster.avgFrequency * (3 / 10) +
    cluster.avgMonetary * (4 / 10)

/-- A cluster together with its composite score (the element type of
`clustersWithScores`). -/
structure ScoredCluster where
  stats : ClusterStats
  composite_score : ℚ
deriving DecidableEq

/-- Default `ScoredCluster` for `List.getD` lookups. -/
def scDflt : ScoredCluster := ⟨csDflt, 0⟩

/-- Stable insertion step of the descending sort modelling the source's
`clustersWithScores.sort((a, b) => b.composite_score - a.composite_score)`
(JavaScript `Array.prototype.sort` is stable: among equal scores the
original order is kept, which is what inserting before the first
non-greater element does). -/
def insertScoredDesc (x : ScoredCluster) : List ScoredCluster → List ScoredCluster
  | [] => [x]
  | y :: ys =>
    if x.composite_score < y.composite_score then y :: insertScoredDesc x ys
    else x :: y :: ys

/-- The descending stable sort by composite score. -/
def sortScoredDesc : List ScoredCluster → List ScoredCluster
  | [] => []
  | x :: xs => insertScoredDesc x (sortScoredDesc xs)

/-- The record built for sorted position `index`:
`rank = index + 1`, `segment_label =
segmentLabels[Math.min(index, segmentLabels.length - 1)]`. -/
def mkRankedCluster (sc : ScoredCluster) (index : ℕ) : ClusterCenter :=
  ⟨sc.stats.cluster_id, sc.stats.avgRecency, sc.stats.avgFrequency, sc.stats.avgMonetary,
    segmentLabels.getD (min index (segmentLabels.length - 1)) "", index + 1,
    sc.composite_score⟩

/-- The indexed map of `clustersWithScores.map((cluster, index) => ...)`. -/
def rankGo : ℕ → List ScoredCluster → List ClusterCenter
  | _, [] => []
  | index, sc :: rest => mkRankedCluster sc index :: rankGo (index + 1) rest

/-- `rankClustersAndAssignLabels(clusterStats)` of `KMeansService`. -/
def rankClustersAndAssignLabels (clusterStats : List ClusterStats) : List ClusterCenter :=
  let clustersWithScores := clusterStats.map (fun c => ScoredCluster.mk c (compositeScoreOf c))
  rankGo 0 (sortScoredDesc clustersWithScores)

-- ### Sorting lemmas

/-- The descending order relation the sort establishes. -/
def ScoreGE (a b : ScoredCluster) : Prop := b.composite_score ≤ a.composite_score

-- ### Silhouette score (`calculateSilhouetteScore`)

/-- `a(i)` of the silhouette: the mean Euclidean distance from point `i` to
the other points of its own cluster
(`sameClusterPoints = data.filter((_, j) => clusters[j] === cluster && i !== j)`),
`0` when there are none. -/
noncomputable def silhouetteA (data : List (List ℚ)) (clusters : List ℕ) (i : ℕ) : ℝ :=
  let cluster := clusters.getD i 0
  let sameIdx := (List.range data.length).filter
    (fun j => decide (clusters.getD j 0 = cluster ∧ i ≠ j))
  if sameIdx.isEmpty then 0
  else (sameIdx.map (fun j => euclideanDistance (data.getD i []) (data.getD j []))).sum /
    sameIdx.length

/-- The mean distance from point `i` to the members of cluster `oc`, the
source's `otherClusterPoints.length > 0 ? mean : Infinity` with `none`
standing for `Infinity`. -/
noncomputable def silhouetteBOf (data : List (List ℚ)) (clusters : List ℕ) (i oc : ℕ) :
    Option ℝ :=
  let pts := (List.range data.length).filter (fun j => decide (clusters.getD j 0 = oc))
  if pts.isEmpty then none
  else some ((pts.map (fun j => euclideanDistance (data.getD i []) (data.getD j []))).sum /
    pts.length)

/-- `[...new Set(clusters)].filter(c => c !== cluster)`.  Only membership
matters downstream (the list feeds a minimum), so the first-occurrence
order of the JavaScript `Set` need not be reproduced. -/
def otherClustersOf (clusters : List ℕ) (cluster : ℕ) : List ℕ :=
  clusters.dedup.filter (fun c => decide (c ≠ cluster))

/-- `Math.min(...)` over values that may be `Infinity` (`none`); the empty
spread gives `Infinity`. -/
noncomputable def minWithInf (l : List (Option ℝ)) : Option ℝ :=
  l.foldl
    (fun acc x =>
      match acc, x with
      | none, x => x
      | some a, none => some a
      | some a, some b => some (min a b))
    none

/-- `b(i)` of the silhouette: the minimum over the other clusters of the
mean distance from `i` to that cluster's members; `none` is `Infinity`. -/
noncomputable def silhouetteB (data : List (List ℚ)) (clusters : List ℕ) (i : ℕ) : Option ℝ :=
  minWithInf ((otherClustersOf clusters (clusters.getD i 0)).map
    (fun oc => silhouetteBOf data clusters i oc))

/-- The per-point silhouette `(b - a) / Math.max(a, b)`.  In JavaScript this
is `NaN` (modelled by `none`) exactly when `b` is `Infinity` (then
`(∞ - a)/∞ = NaN`) or when `Math.max(a, b) = 0` (both `a` and `b` are
non-negative, so then both are `0` and the quotient is `0/0 = NaN`). -/
noncomputable def silhouettePoint (data : List (List ℚ)) (clusters : List ℕ) (i : ℕ) :
    Option ℝ :=
  match silhouetteB data clusters i with
  | none => none
  | some b =>
    if max (silhouetteA data clusters i) b = 0 then none
    else some ((b - silhouetteA data clusters i) / max (silhouetteA data clusters i) b)

/-- JavaScript summation with `NaN` propagation: one `NaN` (`none`) term
poisons the whole `reduce((sum, score) => sum + score, 0)`. -/
noncomputable def jsSum (scores : List (Option ℝ)) : Option ℝ :=
  scores.foldl
    (fun acc s =>
      match acc, s with
      | some a, some b => some (a + b)
      | _, _ => none)
    (some 0)

/-- `calculateSilhouetteScore(data, clusters)` of `KMeansService`: `0` for a
population of at most one point, otherwise the arithmetic mean of the
per-point silhouettes (`NaN`, i.e. `none`, as soon as one contribution is
`NaN`). -/
noncomputable def calculateSilhouetteScore (data : List (List ℚ)) (clusters : List ℕ) :
    Option ℝ :=
  if data.length ≤ 1 then some 0
  else
    let silhouetteScores := (List.range data.length).map
      (fun i => silhouettePoint data clusters i)
    (jsSum silhouetteScores).map (fun s => s / silhouetteScores.length)

-- ### WCSS (`calculateWCSS`)

/-- `calculateWCSS(data, centroids, clusters)` of `KMeansService`: the source
accumulates `distance * distance` where `distance` is the square-root
Euclidean distance; by `euclideanDistance_mul_self` that product is exactly
`euclideanDistanceSq`, so the accumulation below is the source's value. -/
def calculateWCSS (data centroids : List (List ℚ)) (clusters : List ℕ) : ℚ :=
  (List.range data.length).foldl
    (fun wcss index =>
      wcss + euclideanDistanceSq (data.getD index [])
        (centroids.getD (clusters.getD index 0) []))
    0

-- ### Percentile statistics (`calculateDataStats`, `percentile`)

/-- One insertion step of the ascending numeric sort
(`.sort((a, b) => a - b)`). -/
def insertAsc (x : ℚ) : List ℚ → List ℚ
  | [] => [x]
  | y :: ys => if y < x then y :: insertAsc x ys else x :: y :: ys

/-- Ascending numeric sort of a rational list. -/
def sortQ : List ℚ → List ℚ
  | [] => []
  | x :: xs => insertAsc x (sortQ xs)

/-- JavaScript truncation toward zero, for `index % 1` (the fractional part
keeps the sign of `index`; at every reachable call site `index ≥ 0`, where
truncation and floor agree). -/
def truncQ (q : ℚ) : ℤ := if q < 0 then Int.ceil q else Int.floor q

/-- `percentile(values, p)` of `KMeansService`: linear interpolation between
the two neighbouring order statistics (`index = (p/100)·(n-1)`,
`lower = Math.floor(index)`, `upper = Math.ceil(index)`,
`weight = index % 1`; `upper >= n` falls back to the last element). -/
def percentile (values : List ℚ) (p : ℚ) : ℚ :=
  let sorted := sortQ values
  let index := (p / 100) * ((sorted.length : ℚ) - 1)
  let lower := Int.floor index
  let upper := Int.ceil index
  let weight := index - (truncQ index : ℚ)
  if (sorted.length : ℤ) ≤ upper then sorted.getD (sorted.length - 1) 0
  else sorted.getD lower.toNat 0 * (1 - weight) + sorted.getD upper.toNat 0 * weight

/-- One axis of the percentile statistics. -/
structure Percentiles where
  p25 : ℚ
  p50 : ℚ
  p75 : ℚ
deriving DecidableEq

/-- The `dataStats` record of `calculateDataStats`. -/
structure DataStats where
  recencyPercentiles : Percentiles
  frequencyPercentiles : Percentiles
  monetaryPercentiles : Percentiles
deriving DecidableEq

/-- `calculateDataStats(metrics)` of `KMeansService` (the source sorts each
value list and `percentile` sorts its copy again, which is harmless). -/
def calculateDataStats (metrics : List RFMMetrics) : DataStats :=
  let recencyValues := sortQ (metrics.map (·.recency))
  let frequencyValues := sortQ (metrics.map (·.frequency))
  let monetaryValues := sortQ (metrics.map (·.monetary))
  ⟨⟨percentile recencyValues 25, percentile recencyValues 50, percentile recencyValues 75⟩,
    ⟨percentile frequencyValues 25, percentile frequencyValues 50, percentile frequencyValues 75⟩,
    ⟨percentile monetaryValues 25, percentile monetaryValues 50, percentile monetaryValues 75⟩⟩

-- ### Result assembly (`createClusteredMetrics`, `getEmptyResult`, pipeline)

/-- The `ClusteredRFMMetrics` record: the spread `{...metric, cluster_id,
segment}` of the source. -/
structure ClusteredRFMMetrics where
  user_id : String
  recency : ℚ
  frequency : ℚ
  monetary : ℚ
  rfm_score : String
  cluster_id : ℕ
  segment : String
deriving DecidableEq

/-- Default `ClusteredRFMMetrics` for `List.getD` lookups. -/
def cmDflt : ClusteredRFMMetrics := ⟨"", 0, 0, 0, "", 0, ""⟩

/-- The evaluation-metrics record of `ClusteringResult` (the silhouette may
be `NaN`, hence `Option ℝ`). -/
structure EvaluationMetrics where
  silhouetteScore : Option ℝ
  wcss : ℚ
  iterations : ℕ

/-- The `ClusteringResult` record of the source. -/
structure ClusteringResult where
  clusteredMetrics : List ClusteredRFMMetrics
  centers : List ClusterCenter
  evaluationMetrics : EvaluationMetrics
  optimalK : ℕ
  dataStats : DataStats

/-- `getEmptyResult(k = 0)` of `KMeansService`. -/
def getEmptyResult (k : ℕ := 0) : ClusteringResult :=
  ⟨[], [], ⟨some 0, 0, 0⟩, k, ⟨⟨0, 0, 0⟩, ⟨0, 0, 0⟩, ⟨0, 0, 0⟩⟩⟩

/-- The `labelMap` lookup of `createClusteredMetrics`: `Map.set` overwrites,
so the last ranked cluster with a given `cluster_id` wins — `find?` on the
reversed list. -/
def labelLookup (rankedClusters : List ClusterCenter) (cid : ℕ) : Option String :=
  (rankedClusters.reverse.find? (fun c => c.cluster_id == cid)).map (fun c => c.segment_label)

/-- The fallback of `labelMap.get(...) || Cluster ...`: JavaScript `||`
also replaces an empty-string label (never produced by `segmentLabels`). -/
def segmentOrFallback (rankedClusters : List ClusterCenter) (cid : ℕ) : String :=
  match labelLookup rankedClusters cid with
  | some l => if l = "" then "Cluster " ++ toString cid else l
  | none => "Cluster " ++ toString cid

/-- The indexed `metrics.map((metric, index) => ...)` of
`createClusteredMetrics`. -/
def createClusteredMetricsGo (clusters : List ℕ) (rankedClusters : List ClusterCenter) :
    ℕ → List RFMMetrics → List ClusteredRFMMetrics
  | _, [] => []
  | index, metric :: rest =>
    ⟨metric.user_id, metric.recency, metric.frequency, metric.monetary, metric.rfm_score,
      clusters.getD index 0, segmentOrFallback rankedClusters (clusters.getD index 0)⟩ ::
      createClusteredMetricsGo clusters rankedClusters (index + 1) rest

/-- `createClusteredMetrics(metrics, clusters, rankedClusters)`. -/
def createClusteredMetrics (metrics : List RFMMetrics) (clusters : List ℕ)
    (rankedClusters : List ClusterCenter) : List ClusteredRFMMetrics :=
  createClusteredMetricsGo clusters rankedClusters 0 metrics

/-- `denormalizeCenters` of the source just returns the ranked clusters
(their statistics are already in the original scale). -/
def denormalizeCenters (normalizedCentroids : List (List ℚ))
    (originalMetrics : List RFMMetrics) (rankedClusters : List ClusterCenter) :
    List ClusterCenter :=
  rankedClusters

/-- `performKMeansClustering(metrics, k, dataStats?)` of the enhanced
`KMeansService`, threading the random stream (returned as the second
component).  The optional `dataStats` mirrors the source's optional
parameter, recomputed when absent. -/
noncomputable def performKMeansClusteringR (metrics : List RFMMetrics) (k : ℕ)
    (dataStats : Option DataStats) (rng : Rand) : ClusteringResult × Rand :=
  if metrics.isEmpty then (getEmptyResult k, rng)
  else
    let ds := dataStats.getD (calculateDataStats metrics)
    let normalizedData := normalizeData metrics
    let run := runKMeansAlgorithm normalizedData k rng
    let clusterStats := calculateClusterStatistics metrics run.1.clusters k
    let rankedClusters := rankClustersAndAssignLabels clusterStats
    let clusteredMetrics := createClusteredMetrics metrics run.1.clusters rankedClusters
    let centers := denormalizeCenters run.1.centroids metrics rankedClusters
    let wcss := calculateWCSS normalizedData run.1.centroids run.1.clusters
    let silhouetteScore := calculateSilhouetteScore normalizedData run.1.clusters
    (⟨clusteredMetrics, centers, ⟨silhouetteScore, wcss, run.1.iterations⟩, k, ds⟩, run.2)

/-- The source's return value of `performKMeansClustering` (without the
threaded stream). -/
noncomputable def performKMeansClustering (metrics : List RFMMetrics) (k : ℕ)
    (dataStats : Option DataStats) (rng : Rand) : ClusteringResult :=
  (performKMeansClusteringR metrics k dataStats rng).1

-- ### Optimal-K selection (`findOptimalK`)

/-- `improvement - nextImprovement` at interior index `i` of the WCSS sweep:
`(wcss[i-1] - wcss[i]) - (wcss[i] - wcss[i+1])`. -/
def improvementRate (wcssValues : List ℚ) (i : ℕ) : ℚ :=
  (wcssValues.getD (i - 1) 0 - wcssValues.getD i 0) -
    (wcssValues.getD i 0 - wcssValues.getD (i + 1) 0)

/-- The `for (let i = 1; i < wcssValues.length - 1; i++)` elbow scan of
`findOptimalK`, with the remaining iteration count as fuel: keeps the first
index whose improvement rate strictly exceeds the best seen so far
(starting from `maxImprovement = 0`, `optimalK = minK`). -/
def elbowGo (wcssValues : List ℚ) (minK : ℕ) : ℕ → ℕ → ℚ → ℕ → ℕ
  | 0, _, _, optimalK => optimalK
  | fuel + 1, i, maxImprovement, optimalK =>
    if maxImprovement < improvementRate wcssValues i then
      elbowGo wcssValues minK fuel (i + 1) (improvementRate wcssValues i) (minK + i)
    else
      elbowGo wcssValues minK fuel (i + 1) maxImprovement optimalK

/-- The elbow selection over a recorded WCSS list. -/
def elbowSelect (minK : ℕ) (wcssValues : List ℚ) : ℕ :=
  elbowGo wcssValues minK (wcssValues.length - 1 - 1) 1 0 minK

/-- The candidate `K` values of the sweep
`for (let k = minK; k <= maxK; k++)` with `minK = 2`,
`maxK = min(8, floor(metrics.length / 2))`. -/
def candidateKs (customerCount : ℕ) : List ℕ :=
  List.range' 2 (min 8 (customerCount / 2) - 1)

/-- The sweep body of `findOptimalK`: one full clustering per candidate `K`
(the source recomputes `calculateDataStats` inside the loop), recording each
run's WCSS and threading the random stream. -/
noncomputable def sweepWCSS (metrics : List RFMMetrics) : List ℕ → Rand → List ℚ × Rand
  | [], rng => ([], rng)
  | k :: ks, rng =>
    let ds := calculateDataStats metrics
    let res := performKMeansClusteringR metrics k (some ds) rng
    let rest := sweepWCSS metrics ks res.2
    (res.1.evaluationMetrics.wcss :: rest.1, rest.2)

/-- `findOptimalK(metrics)` of `KMeansService`: sweep, then elbow scan. -/
noncomputable def findOptimalK (metrics : List RFMMetrics) (rng : Rand) : ℕ × Rand :=
  let sweep := sweepWCSS metrics (candidateKs metrics.length) rng
  (elbowSelect 2 sweep.1, sweep.2)

/-- `performEnhancedClustering(metrics)` of `KMeansService`. -/
noncomputable def performEnhancedClustering (metrics : List RFMMetrics) (rng : Rand) :
    ClusteringResult :=
  if metrics.isEmpty then getEmptyResult
  else
    let dataStats := calculateDataStats metrics
    let opt := findOptimalK metrics rng
    let result := performKMeansClusteringR metrics opt.1 (some dataStats) opt.2
    { result.1 with optimalK := opt.1, dataStats := dataStats }

-- ### RFM metric aggregation (`RFMCalculatorService`)

/-- A customer row as the aggregator sees it (`doc.id`; `none` or the empty
string model a missing/falsy identifier, both skipped by the source's
`if (!customer.id) continue`). -/
structure Customer where
  id : Option String
deriving DecidableEq

/-- A delivered order as the aggregator sees it: `user_id` (possibly
missing/falsy), `total` (possibly missing — `order.total || 0` treats it as
0), and the `created_at` timestamp in milliseconds (`Date.getTime()`). -/
structure Order where
  user_id : Option String
  total : Option ℚ
  created_at : ℤ
deriving DecidableEq

/-- `1000 * 60 * 60 * 24` milliseconds per day. -/
def millisPerDay : ℤ := 1000 * 60 * 60 * 24

/-- `Math.max(...)` over a non-empty integer list (the timestamps of a
customer's orders; every call site is non-empty). -/
def listMaxInt : List ℤ → ℤ
  | [] => 0
  | x :: xs => xs.foldl max x

/-- The `Math.max` over `orderDates.map(date => date.getTime())`. -/
def lastOrderTime (orders : List Order) : ℤ :=
  listMaxInt (orders.map (·.created_at))

/-- The record returned by `calculateCustomerMetrics`. -/
structure CustomerMetrics where
  recency : ℚ
  frequency : ℚ
  monetary : ℚ
deriving DecidableEq

/-- `calculateCustomerMetrics(orders, currentDate)` of
`RFMCalculatorService`: recency is
`Math.floor((currentDate - lastOrderDate) / (1000·60·60·24))` clamped by
`Math.max(0, ·)` (floor of the real quotient by a positive divisor is
`Int.fdiv`); frequency is `Math.max(1, orders.length)`; monetary is
`Math.max(0, Σ (order.total || 0))`. -/
def calculateCustomerMetrics (orders : List Order) (currentDate : ℤ) : CustomerMetrics :=
  let recency := Int.fdiv (currentDate - lastOrderTime orders) millisPerDay
  let frequency := orders.length
  let monetary := orders.foldl (fun sum order => sum + order.total.getD 0) 0
  ⟨max 0 (recency : ℚ), max 1 (frequency : ℚ), max 0 monetary⟩

/-- `calculateMetricsForCustomers(customers, orders)` of
`RFMCalculatorService`: customers with a falsy id are skipped; a customer's
orders are those whose (truthy) `user_id` equals the customer's id — the
`groupOrdersByCustomer` lookup — and customers without any order are
skipped; the rest get their RFM metrics, with `rfm_score` left empty. -/
def calculateMetricsForCustomers (customers : List Customer) (orders : List Order)
    (currentDate : ℤ) : List RFMMetrics :=
  customers.filterMap (fun customer =>
    match customer.id with
    | none => none
    | some cid =>
      if cid = "" then none
      else
        let customerOrders := orders.filter (fun order => order.user_id == some cid)
        if customerOrders.isEmpty then none
        else
          let m := calculateCustomerMetrics customerOrders currentDate
          some ⟨cid, m.recency, m.frequency, m.monetary, ""⟩)

-- ### Helper lemmas on minima, maxima and indexed map

theorem foldl_min_le_init (xs : List ℚ) : ∀ b, xs.foldl min b ≤ b := by
  induction xs with
  | nil =>
    intro b
    simp
  | cons x xs ih =>
    intro b
    calc (x :: xs).foldl min b = xs.foldl min (min b x) := rfl
      _ ≤ min b x := ih _
      _ ≤ b := min_le_left _ _

theorem foldl_min_le_mem (xs : List ℚ) : ∀ b a, a ∈ xs → xs.foldl min b ≤ a := by
  induction xs with
  | nil =>
    intro b a h
    simp at h
  | cons x xs ih =>
    intro b a h
    rcases List.mem_cons.mp h with rfl | h
    · calc (a :: xs).foldl min b = xs.foldl min (min b a) := rfl
        _ ≤ min b a := foldl_min_le_init _ _
        _ ≤ a := min_le_right _ _
    · exact ih _ _ h

theorem le_foldl_max_init (xs : List ℚ) : ∀ b, b ≤ xs.foldl max b := by
  induction xs with
  | nil =>
    intro b
    simp
  | cons x xs ih =>
    intro b
    calc b ≤ max b x := le_max_left _ _
      _ ≤ xs.foldl max (max b x) := ih _
      _ = (x :: xs).foldl max b := rfl

theorem le_foldl_max_mem (xs : List ℚ) : ∀ b a, a ∈ xs → a ≤ xs.foldl max b := by
  induction xs with
  | nil =>
    intro b a h
    simp at h
  | cons x xs ih =>
    intro b a h
    rcases List.mem_cons.mp h with rfl | h
    · calc a ≤ max b a := le_max_right _ _
        _ ≤ xs.foldl max (max b a) := le_foldl_max_init _ _
        _ = (a :: xs).foldl max b := rfl
    · exact ih _ _ h

theorem listMin_le_of_mem {l : List ℚ} {a : ℚ} (h : a ∈ l) : listMin l ≤ a := by
  cases l with
  | nil => simp at h
  | cons x xs =>
    rcases List.mem_cons.mp h with rfl | h
    · exact foldl_min_le_init xs a
    · exact foldl_min_le_mem xs x a h

theorem le_listMax_of_mem {l : List ℚ} {a : ℚ} (h : a ∈ l) : a ≤ listMax l := by
  cases l with
  | nil => simp at h
  | cons x xs =>
    rcases List.mem_cons.mp h with rfl | h
    · exact le_foldl_max_init xs a
    · exact le_foldl_max_mem xs x a h

theorem getD_map_lt {α β : Type} (f : α → β) (l : List α) (i : ℕ) (d : α) (d' : β)
    (h : i < l.length) : (l.map f).getD i d' = f (l.getD i d) := by
  induction l generalizing i with
  | nil => simp at h
  | cons x xs ih =>
    cases i with
    | zero => rfl
    | succ n =>
      simp only [List.map_cons, List.getD_cons_succ]
      exact ih n (by simpa using h)

-- ### Bounds of `normalize`

theorem normalize_nonneg_le_one {v lo hi : ℚ} (h1 : lo ≤ v) (h2 : v ≤ hi) :
    0 ≤ normalize v lo hi ∧ normalize v lo hi ≤ 1 := by
  unfold normalize
  by_cases h : hi = lo
  · simp [h]
  · have hlt : lo < hi := lt_of_le_of_ne (le_trans h1 h2) (Ne.symm h)
    have hpos : 0 < hi - lo := sub_pos.mpr hlt
    rw [if_neg h]
    constructor
    · exact div_nonneg (sub_nonneg.mpr h1) (le_of_lt hpos)
    · rw [div_le_one hpos]
      exact sub_le_sub_right h2 lo

theorem normalize_at_min (lo hi : ℚ) : normalize lo lo hi = 0 := by
  unfold normalize
  by_cases h : hi = lo <;> simp [h]

theorem normalize_at_max {lo hi : ℚ} (h : lo ≠ hi) : normalize hi lo hi = 1 := by
  unfold normalize
  rw [if_neg (Ne.symm h)]
  exact div_self (sub_ne_zero.mpr (Ne.symm h))

theorem normalize_degenerate (v lo : ℚ) : normalize v lo lo = 0 := by
  unfold normalize
  simp

theorem normalizeData_getD (metrics : List RFMMetrics) (i : ℕ) (h : i < metrics.length) :
    (normalizeData metrics).getD i [] =
      [normalize (metrics.getD i mDflt).recency
         (listMin (metrics.map (·.recency))) (listMax (metrics.map (·.recency))),
       normalize (metrics.getD i mDflt).frequency
         (listMin (metrics.map (·.frequency))) (listMax (metrics.map (·.frequency))),
       normalize (metrics.getD i mDflt).monetary
         (listMin (metrics.map (·.monetary))) (listMax (metrics.map (·.monetary)))] := by
  unfold normalizeData
  exact getD_map_lt _ _ _ mDflt _ h

/-- C3.  For every non-empty list of RFM records, `normalizeData` maps each
record's recency, frequency and monetary value to `(v - min) / (max - min)`
computed per axis over the full record set: every normalized axis value lies
in `[0,1]`; a value equal to the population minimum of its axis maps to
exactly `0`; on a non-degenerate axis a value equal to the population maximum
maps to exactly `1`; and on a degenerate axis (`max = min`) every record's
value maps to `0`. -/
theorem normalizeData_unit_interval_and_extremes (metrics : List RFMMetrics)
    (hne : metrics ≠ []) :
    (∀ i, i < metrics.length →
      (normalizeData metrics).getD i [] =
        [normalize (metrics.getD i mDflt).recency
           (listMin (metrics.map (·.recency))) (listMax (metrics.map (·.recency))),
         normalize (metrics.getD i mDflt).frequency
           (listMin (metrics.map (·.frequency))) (listMax (metrics.map (·.frequency))),
         normalize (metrics.getD i mDflt).monetary
           (listMin (metrics.map (·.monetary))) (listMax (metrics.map (·.monetary)))]) ∧
    (∀ row ∈ normalizeData metrics, ∀ x ∈ row, 0 ≤ x ∧ x ≤ 1) ∧
    (∀ i, i < metrics.length →
      ((metrics.getD i mDflt).recency = listMin (metrics.map (·.recency)) →
        ((normalizeData metrics).getD i []).getD 0 0 = 0) ∧
      (listMin (metrics.map (·.recency)) ≠ listMax (metrics.map (·.recency)) →
        (metrics.getD i mDflt).recency = listMax (metrics.map (·.recency)) →
        ((normalizeData metrics).getD i []).getD 0 0 = 1) ∧
      (listMin (metrics.map (·.recency)) = listMax (metrics.map (·.recency)) →
        ((normalizeData metrics).getD i []).getD 0 0 = 0) ∧
      ((metrics.getD i mDflt).frequency = listMin (metrics.map (·.frequency)) →
        ((normalizeData metrics).getD i []).getD 1 0 = 0) ∧
      (listMin (metrics.map (·.frequency)) ≠ listMax (metrics.map (·.frequency)) →
        (metrics.getD i mDflt).frequency = listMax (metrics.map (·.frequency)) →
        ((normalizeData metrics).getD i []).getD 1 0 = 1) ∧
      (listMin (metrics.map (·.frequency)) = listMax (metrics.map (·.frequency)) →
        ((normalizeData metrics).getD i []).getD 1 0 = 0) ∧
      ((metrics.getD i mDflt).monetary = listMin (metrics.map (·.monetary)) →
        ((normalizeData metrics).getD i []).getD 2 0 = 0) ∧
      (listMin (metrics.map (·.monetary)) ≠ listMax (metrics.map (·.monetary)) →
        (metrics.getD i mDflt).monetary = listMax (metrics.map (·.monetary)) →
        ((normalizeData metrics).getD i []).getD 2 0 = 1) ∧
      (listMin (metrics.map (·.monetary)) = listMax (metrics.map (·.monetary)) →
        ((normalizeData metrics).getD i []).getD 2 0 = 0)) := by
  refine ⟨fun i hi => normalizeData_getD metrics i hi, ?_, ?_⟩
  · intro row hrow x hx
    unfold normalizeData at hrow
    simp only [List.mem_map] at hrow
    obtain ⟨m, hm, rfl⟩ := hrow
    have hr : 0 ≤ normalize m.recency (listMin (metrics.map (·.recency)))
        (listMax (metrics.map (·.recency))) ∧
        normalize m.recency (listMin (metrics.map (·.recency)))
        (listMax (metrics.map (·.recency))) ≤ 1 :=
      normalize_nonneg_le_one (listMin_le_of_mem (List.mem_map_of_mem _ hm))
        (le_listMax_of_mem (List.mem_map_of_mem _ hm))
    have hf : 0 ≤ normalize m.frequency (listMin (metrics.map (·.frequency)))
        (listMax (metrics.map (·.frequency))) ∧
        normalize m.frequency (listMin (metrics.map (·.frequency)))
        (listMax (metrics.map (·.frequency))) ≤ 1 :=
      normalize_nonneg_le_one (listMin_le_of_mem (List.mem_map_of_mem _ hm))
        (le_listMax_of_mem (List.mem_map_of_mem _ hm))
    have hmo : 0 ≤ normalize m.monetary (listMin (metrics.map (·.monetary)))
        (listMax (metrics.map (·.monetary))) ∧
        normalize m.monetary (listMin (metrics.map (·.monetary)))
        (listMax (metrics.map (·.monetary))) ≤ 1 :=
      normalize_nonneg_le_one (listMin_le_of_mem (List.mem_map_of_mem _ hm))
        (le_listMax_of_mem (List.mem_map_of_mem _ hm))
    simp only [List.mem_cons, List.not_mem_nil, or_false] at hx
    rcases hx with rfl | rfl | rfl
    · exact hr
    · exact hf
    · exact hmo
  · intro i hi
    rw [normalizeData_getD metrics i hi]
    refine ⟨?_, ?_, ?_, ?_, ?_, ?_, ?_, ?_, ?_⟩
    · intro h
      simp only [List.getD_cons_zero]
      rw [h]
      exact normalize_at_min _ _
    · intro hne h
      simp only [List.getD_cons_zero]
      rw [h]
      exact normalize_at_max hne
    · intro h
      simp only [List.getD_cons_zero]
      rw [h]
      exact normalize_degenerate _ _
    · intro h
      simp only [List.getD_cons_succ, List.getD_cons_zero]
      rw [h]
      exact normalize_at_min _ _
    · intro hne h
      simp only [List.getD_cons_succ, List.getD_cons_zero]
      rw [h]
      exact normalize_at_max hne
    · intro h
      simp only [List.getD_cons_succ, List.getD_cons_zero]
      rw [h]
      exact normalize_degenerate _ _
    · intro h
      simp only [List.getD_cons_succ, List.getD_cons_zero]
      rw [h]
      exact normalize_at_min _ _
    · intro hne h
      simp only [List.getD_cons_succ, List.getD_cons_zero]
      rw [h]
      exact normalize_at_max hne
    · intro h
      simp only [List.getD_cons_succ, List.getD_cons_zero]
      rw [h]
      exact normalize_degenerate _ _

/-- Witness for C3: on the concrete population
`[(recency 1, frequency 2, monetary 3), (recency 5, frequency 2, monetary 7)]`
the first record's recency (the population minimum) normalizes to `0`, the
second record's monetary value (the population maximum, non-degenerate axis)
normalizes to `1`, and the degenerate frequency axis normalizes to `0`. -/
theorem normalizeData_unit_interval_and_extremes_witness :
    ((normalizeData [⟨"a", 1, 2, 3, ""⟩, ⟨"b", 5, 2, 7, ""⟩]).getD 0 []).getD 0 0 = 0 ∧
    ((normalizeData [⟨"a", 1, 2, 3, ""⟩, ⟨"b", 5, 2, 7, ""⟩]).getD 1 []).getD 2 0 = 1 ∧
    ((normalizeData [⟨"a", 1, 2, 3, ""⟩, ⟨"b", 5, 2, 7, ""⟩]).getD 0 []).getD 1 0 = 0 := by
  have h := normalizeData_unit_interval_and_extremes
    [⟨"a", 1, 2, 3, ""⟩, ⟨"b", 5, 2, 7, ""⟩] (by decide)
  refine ⟨(h.2.2 0 (by decide)).1 (by decide), ?_, ?_⟩
  · exact (h.2.2 1 (by decide)).2.2.2.2.2.2.2.1 (by decide) (by decide)
  · exact (h.2.2 0 (by decide)).2.2.2.2.2.1 (by decide)

theorem foldl_add_sq_mono (p q : List ℚ) (idxs : List ℕ) :
    ∀ s : ℚ, s ≤ idxs.foldl (fun sum index => sum + (p.getD index 0 - q.getD index 0) ^ 2) s := by
  induction idxs with
  | nil =>
    intro s
    simp
  | cons i is ih =>
    intro s
    calc s ≤ s + (p.getD i 0 - q.getD i 0) ^ 2 := le_add_of_nonneg_right (sq_nonneg _)
      _ ≤ _ := ih _

theorem euclideanDistanceSq_nonneg (p q : List ℚ) : 0 ≤ euclideanDistanceSq p q :=
  foldl_add_sq_mono p q (List.range p.length) 0

/-- Bridge: `distance * distance` as the source computes it (a square root
times itself) is exactly the rational `euclideanDistanceSq`. -/
theorem euclideanDistance_mul_self (p q : List ℚ) :
    euclideanDistance p q * euclideanDistance p q = (euclideanDistanceSq p q : ℝ) :=
  Real.mul_self_sqrt (by exact_mod_cast euclideanDistanceSq_nonneg p q)

/-- Bridge: comparing the source's square-root distances is the same as
comparing the squared distances, so the centroid scans below may work with
`euclideanDistanceSq` and stay computable. -/
theorem euclideanDistance_lt_iff (p q r s : List ℚ) :
    euclideanDistance p q < euclideanDistance r s ↔
      euclideanDistanceSq p q < euclideanDistanceSq r s := by
  unfold euclideanDistance
  rw [Real.sqrt_lt_sqrt_iff (by exact_mod_cast euclideanDistanceSq_nonneg p q)]
  exact_mod_cast Iff.rfl

theorem kmeansLoop_spec (data : List (List ℚ)) (k : ℕ) :
    ∀ (fuel : ℕ) (st : KMState),
      ∃ n, n ≤ fuel ∧ kmeansLoop data k fuel st = (kmeansStep data k)^[n] st ∧
        (∀ m, m < n →
          centroidsConverged ((kmeansStep data k)^[m] st).centroids
            ((kmeansStep data k)^[m] st).previous convergenceThreshold = false) ∧
        (n < fuel →
          centroidsConverged ((kmeansStep data k)^[n] st).centroids
            ((kmeansStep data k)^[n] st).previous convergenceThreshold = true) := by
  intro fuel
  induction fuel with
  | zero =>
    intro st
    exact ⟨0, le_refl 0, rfl, fun m hm => absurd hm (Nat.not_lt_zero m),
      fun h => absurd h (Nat.not_lt_zero 0)⟩
  | succ fuel ih =>
    intro st
    by_cases hc : centroidsConverged st.centroids st.previous convergenceThreshold = true
    · refine ⟨0, Nat.zero_le _, ?_, ?_, ?_⟩
      · simp [kmeansLoop, hc]
      · intro m hm
        exact absurd hm (Nat.not_lt_zero m)
      · intro _
        simpa using hc
    · obtain ⟨n, hn, heq, hmin, hconv⟩ := ih (kmeansStep data k st)
      have hfalse : centroidsConverged st.centroids st.previous convergenceThreshold = false := by
        simpa using hc
      refine ⟨n + 1, by omega, ?_, ?_, ?_⟩
      · rw [show kmeansLoop data k (fuel + 1) st = kmeansLoop data k fuel (kmeansStep data k st) by
          simp [kmeansLoop, hfalse]]
        rw [heq, ← Function.iterate_succ_apply]
      · intro m hm
        cases m with
        | zero => simpa using hfalse
        | succ m' =>
          rw [Function.iterate_succ_apply]
          exact hmin m' (by omega)
      · intro h
        rw [Function.iterate_succ_apply]
        exact hconv (by omega)

theorem iterate_kmeansStep_iterations (data : List (List ℚ)) (k : ℕ) :
    ∀ (n : ℕ) (st : KMState), ((kmeansStep data k)^[n] st).iterations = st.iterations + n := by
  intro n
  induction n with
  | zero =>
    intro st
    simp
  | succ n ih =>
    intro st
    rw [Function.iterate_succ_apply, ih]
    show st.iterations + 1 + n = st.iterations + (n + 1)
    omega

/-- C5.  The k-means loop of `runKMeansAlgorithm` executes at most the fixed
maximum of 100 iterations; it stops earlier exactly when every centroid
coordinate has moved less than the convergence threshold `0.0001` between
consecutive iterations (`centroidsConverged`, whose meaning the last
conjunct spells out); and the returned `iterations` field equals the number
of loop-body iterations actually performed (the returned state is the
`iterations`-fold application of the loop body to the initial state, no
earlier state satisfies the convergence test, and an early stop — fewer
than 100 iterations — happens only with the test satisfied). -/
theorem runKMeansAlgorithm_iteration_bound (data : List (List ℚ)) (k : ℕ) (rng : Rand) :
    (runKMeansAlgorithm data k rng).1.iterations ≤ maxIterations ∧
    (runKMeansAlgorithm data k rng).1.centroids =
      ((kmeansStep data k)^[(runKMeansAlgorithm data k rng).1.iterations]
        (kmInit data k rng)).centroids ∧
    (∀ m, m < (runKMeansAlgorithm data k rng).1.iterations →
      centroidsConverged ((kmeansStep data k)^[m] (kmInit data k rng)).centroids
        ((kmeansStep data k)^[m] (kmInit data k rng)).previous convergenceThreshold = false) ∧
    ((runKMeansAlgorithm data k rng).1.iterations < maxIterations →
      centroidsConverged
        ((kmeansStep data k)^[(runKMeansAlgorithm data k rng).1.iterations]
          (kmInit data k rng)).centroids
        ((kmeansStep data k)^[(runKMeansAlgorithm data k rng).1.iterations]
          (kmInit data k rng)).previous convergenceThreshold = true) ∧
    (∀ current previous t, centroidsConverged current previous t = true ↔
      (previous ≠ [] ∧ ∀ i, i < current.length → ∀ d, d < (current.getD i []).length →
        |(current.getD i []).getD d 0 - (previous.getD i []).getD d 0| < t)) := by
  obtain ⟨n, hn, heq, hmin, hconv⟩ := kmeansLoop_spec data k maxIterations (kmInit data k rng)
  have hiter : (runKMeansAlgorithm data k rng).1.iterations = n := by
    show (kmeansLoop data k maxIterations (kmInit data k rng)).iterations = n
    rw [heq, iterate_kmeansStep_iterations]
    simp [kmInit]
  refine ⟨?_, ?_, ?_, ?_, ?_⟩
  · rw [hiter]
    exact hn
  · rw [hiter]
    show (kmeansLoop data k maxIterations (kmInit data k rng)).centroids = _
    rw [heq]
  · intro m hm
    rw [hiter] at hm
    exact hmin m hm
  · intro h
    rw [hiter] at h ⊢
    exact hconv h
  · intro current previous t
    unfold centroidsConverged
    by_cases hp : previous.isEmpty
    · simp [hp, List.isEmpty_iff.mp hp]
    · rw [if_neg hp]
      simp only [List.all_eq_true, List.mem_range, decide_eq_true_eq]
      constructor
      · intro h
        exact ⟨by simpa [List.isEmpty_iff] using hp, fun i hi d hd => h i hi d hd⟩
      · intro h i hi d hd
        exact h.2 i hi d hd

/-- C8.  Clustering is deterministic under a fixed random source: two runs of
`runKMeansAlgorithm` on identical input vectors and identical `k`, fed the
same stream of random draws, produce identical centroids, identical
assignments and identical iteration counts (in this embedding every source
of randomness — the k-means++ seeding and the empty-cluster reseeding — is
drawn from the explicit `Rand` stream threaded through the run; nothing
else is non-deterministic). -/
theorem runKMeansAlgorithm_deterministic (data : List (List ℚ)) (k : ℕ) (rng1 rng2 : Rand)
    (h : rng1 = rng2) :
    (runKMeansAlgorithm data k rng1).1.centroids = (runKMeansAlgorithm data k rng2).1.centroids ∧
    (runKMeansAlgorithm data k rng1).1.clusters = (runKMeansAlgorithm data k rng2).1.clusters ∧
    (runKMeansAlgorithm data k rng1).1.iterations =
      (runKMeansAlgorithm data k rng2).1.iterations := by
  subst h
  exact ⟨rfl, rfl, rfl⟩

/-- Witness for C8: two runs on the concrete two-point data set with the
same all-zero random stream agree on their assignments. -/
theorem runKMeansAlgorithm_deterministic_witness :
    (runKMeansAlgorithm [[0, 0, 0], [1, 1, 1]] 2 (fun _ => 0 : Rand)).1.clusters =
      (runKMeansAlgorithm [[0, 0, 0], [1, 1, 1]] 2 (fun _ => 0 : Rand)).1.clusters :=
  (runKMeansAlgorithm_deterministic [[0, 0, 0], [1, 1, 1]] 2 (fun _ => 0 : Rand)
    (fun _ => 0 : Rand) rfl).2.1

theorem insertScoredDesc_perm (x : ScoredCluster) (l : List ScoredCluster) :
    List.Perm (insertScoredDesc x l) (x :: l) := by
  induction l with
  | nil => exact List.Perm.refl _
  | cons y ys ih =>
    unfold insertScoredDesc
    by_cases h : x.composite_score < y.composite_score
    · simp only [if_pos h]
      exact (List.Perm.cons y ih).trans (List.Perm.swap x y ys)
    · simp only [if_neg h]
      exact List.Perm.refl _

theorem sortScoredDesc_perm (l : List ScoredCluster) :
    List.Perm (sortScoredDesc l) l := by
  induction l with
  | nil => exact List.Perm.refl _
  | cons x xs ih =>
    exact (insertScoredDesc_perm x (sortScoredDesc xs)).trans (List.Perm.cons x ih)

theorem insertScoredDesc_pairwise (x : ScoredCluster) (l : List ScoredCluster)
    (h : List.Pairwise ScoreGE l) : List.Pairwise ScoreGE (insertScoredDesc x l) := by
  induction l with
  | nil => exact List.pairwise_singleton _ _
  | cons y ys ih =>
    unfold insertScoredDesc
    rcases List.pairwise_cons.mp h with ⟨hy, hys⟩
    by_cases hlt : x.composite_score < y.composite_score
    · rw [if_pos hlt]
      refine List.pairwise_cons.mpr ⟨?_, ih hys⟩
      intro z hz
      have hz' : z = x ∨ z ∈ ys :=
        List.mem_cons.mp ((insertScoredDesc_perm x ys).mem_iff.mp hz)
      rcases hz' with rfl | hz'
      · exact le_of_lt hlt
      · exact hy z hz'
    · rw [if_neg hlt]
      refine List.pairwise_cons.mpr ⟨?_, h⟩
      intro z hz
      rcases List.mem_cons.mp hz with rfl | hz'
      · exact le_of_not_lt hlt
      · exact le_trans (hy z hz') (le_of_not_lt hlt)

theorem sortScoredDesc_pairwise (l : List ScoredCluster) :
    List.Pairwise ScoreGE (sortScoredDesc l) := by
  induction l with
  | nil => exact List.Pairwise.nil
  | cons x xs ih => exact insertScoredDesc_pairwise x (sortScoredDesc xs) ih

theorem pairwise_getD_le_head {l : List ScoredCluster} (h : List.Pairwise ScoreGE l)
    (j : ℕ) (hj : j < l.length) :
    (l.getD j scDflt).composite_score ≤ (l.getD 0 scDflt).composite_score := by
  cases l with
  | nil => simp at hj
  | cons x xs =>
    cases j with
    | zero => exact le_refl _
    | succ j' =>
      rcases List.pairwise_cons.mp h with ⟨hx, _⟩
      have hmem : xs.getD j' scDflt ∈ xs := by
        rw [List.getD_eq_getElem xs scDflt (by simpa using hj)]
        exact List.getElem_mem _
      exact hx _ hmem

-- ### `rankGo` lemmas

theorem rankGo_length (l : List ScoredCluster) : ∀ i, (rankGo i l).length = l.length := by
  induction l with
  | nil =>
    intro i
    rfl
  | cons x xs ih =>
    intro i
    show (rankGo i (x :: xs)).length = xs.length + 1
    unfold rankGo
    simp [ih (i + 1)]

theorem rankGo_map_rank (l : List ScoredCluster) :
    ∀ i, (rankGo i l).map (fun c => c.rank) = List.range' (i + 1) l.length := by
  induction l with
  | nil =>
    intro i
    rfl
  | cons x xs ih =>
    intro i
    show (mkRankedCluster x i :: rankGo (i + 1) xs).map (fun c => c.rank) =
      List.range' (i + 1) (xs.length + 1)
    rw [List.map_cons, ih (i + 1), List.range'_succ]
    rfl

theorem mem_rankGo {c : ClusterCenter} (l : List ScoredCluster) :
    ∀ i, c ∈ rankGo i l →
      ∃ j, j < l.length ∧ c = mkRankedCluster (l.getD j scDflt) (i + j) := by
  induction l with
  | nil =>
    intro i h
    simp [rankGo] at h
  | cons x xs ih =>
    intro i h
    rcases List.mem_cons.mp h with rfl | h'
    · exact ⟨0, Nat.succ_pos _, by simp⟩
    · obtain ⟨j, hj, hc⟩ := ih (i + 1) h'
      refine ⟨j + 1, by simpa using Nat.succ_lt_succ hj, ?_⟩
      rw [hc]
      congr 1
      omega

/-- C4.  `rankClustersAndAssignLabels` computes each cluster's composite
score as `0.3·recencyScore + 0.3·avgFrequency + 0.4·avgMonetary` (with
`recencyScore = 1/avgRecency` when `avgRecency > 0` and `1` otherwise),
sorts the clusters by composite score descending, assigns ranks `1..K` (so
in particular a permutation of `1..K`, with rank 1 held by a cluster of
maximum composite score), and assigns labels from the fixed sequence
`["VIP", "Loyal", "Potential", "Pay Attention"]` in rank order, clamping to
the last label when the rank exceeds the label count. -/
theorem rankClustersAndAssignLabels_spec (clusterStats : List ClusterStats) :
    (rankClustersAndAssignLabels clusterStats).length = clusterStats.length ∧
    (rankClustersAndAssignLabels clusterStats).map (fun c => c.rank) =
      List.range' 1 clusterStats.length ∧
    (∀ c ∈ rankClustersAndAssignLabels clusterStats, c.rank = 1 →
      ∀ d ∈ rankClustersAndAssignLabels clusterStats,
        d.composite_score ≤ c.composite_score) ∧
    (∀ c ∈ rankClustersAndAssignLabels clusterStats,
      c.segment_label =
        segmentLabels.getD (min (c.rank - 1) (segmentLabels.length - 1)) "") ∧
    (∀ c ∈ rankClustersAndAssignLabels clusterStats, ∃ s ∈ clusterStats,
      c.cluster_id = s.cluster_id ∧ c.recency_center = s.avgRecency ∧
      c.frequency_center = s.avgFrequency ∧ c.monetary_center = s.avgMonetary ∧
      c.composite_score = recencyScoreOf s * (3 / 10) + s.avgFrequency * (3 / 10) +
        s.avgMonetary * (4 / 10)) ∧
    (clusterStats ≠ [] →
      ∃ c ∈ rankClustersAndAssignLabels clusterStats, c.rank = 1) := by
  set scored := clusterStats.map (fun c => ScoredCluster.mk c (compositeScoreOf c)) with hscored
  have hlen : (sortScoredDesc scored).length = clusterStats.length := by
    rw [(sortScoredDesc_perm scored).length_eq, hscored, List.length_map]
  have hout : rankClustersAndAssignLabels clusterStats = rankGo 0 (sortScoredDesc scored) := rfl
  refine ⟨?_, ?_, ?_, ?_, ?_, ?_⟩
  · rw [hout, rankGo_length, hlen]
  · rw [hout, rankGo_map_rank, hlen]
  · intro c hc hc1 d hd
    rw [hout] at hc hd
    obtain ⟨j, hj, rfl⟩ := mem_rankGo _ 0 hc
    obtain ⟨j', hj', rfl⟩ := mem_rankGo _ 0 hd
    have h1 : 0 + j + 1 = 1 := hc1
    have hj0 : j = 0 := by omega
    subst hj0
    show ((sortScoredDesc scored).getD j' scDflt).composite_score ≤
      ((sortScoredDesc scored).getD 0 scDflt).composite_score
    exact pairwise_getD_le_head (sortScoredDesc_pairwise scored) j' hj'
  · intro c hc
    rw [hout] at hc
    obtain ⟨j, hj, rfl⟩ := mem_rankGo _ 0 hc
    show segmentLabels.getD (min (0 + j) (segmentLabels.length - 1)) "" =
      segmentLabels.getD (min ((0 + j) + 1 - 1) (segmentLabels.length - 1)) ""
    congr 1
  · intro c hc
    rw [hout] at hc
    obtain ⟨j, hj, rfl⟩ := mem_rankGo _ 0 hc
    have hmem : (sortScoredDesc scored).getD j scDflt ∈ sortScoredDesc scored := by
      rw [List.getD_eq_getElem _ scDflt hj]
      exact List.getElem_mem _
    have hmem' : (sortScoredDesc scored).getD j scDflt ∈ scored :=
      (sortScoredDesc_perm scored).mem_iff.mp hmem
    rw [hscored] at hmem'
    obtain ⟨s, hs, heq⟩ := List.mem_map.mp hmem'
    refine ⟨s, hs, ?_, ?_, ?_, ?_, ?_⟩ <;> rw [← heq] <;> rfl
  · intro hne
    rw [hout]
    have hlen' : sortScoredDesc scored ≠ [] := by
      intro habs
      apply hne
      have := hlen
      rw [habs] at this
      exact List.length_eq_zero.mp this.symm
    cases hsort : sortScoredDesc scored with
    | nil => exact absurd hsort hlen'
    | cons x xs =>
      refine ⟨mkRankedCluster x 0, ?_, rfl⟩
      show mkRankedCluster x 0 ∈ mkRankedCluster x 0 :: rankGo (0 + 1) xs
      exact List.mem_cons_self _ _

/-- Concrete evaluation used by the empty-cluster ranking claim: one customer
of recency 100, frequency 0, monetary 0 in cluster 0, with `k = 2`. -/
theorem rankedClusters_concrete_example :
    rankClustersAndAssignLabels
        (calculateClusterStatistics [⟨"u1", 100, 0, 0, ""⟩] [0] 2) =
      [⟨1, 0, 0, 0, "VIP", 1, 3 / 10⟩, ⟨0, 100, 0, 0, "Loyal", 2, 3 / 1000⟩] := by
  have hstats : calculateClusterStatistics [⟨"u1", 100, 0, 0, ""⟩] [0] 2 =
      [⟨0, 1, 100, 0, 0⟩, ⟨1, 0, 0, 0, 0⟩] := by
    norm_num [calculateClusterStatistics, metricsOfCluster, List.range_succ,
      List.filterMap_cons, List.zip]
  rw [hstats]
  norm_num [rankClustersAndAssignLabels, sortScoredDesc, insertScoredDesc,
    mkRankedCluster, compositeScoreOf, recencyScoreOf, segmentLabels, rankGo]

/-- C9.  An empty cluster is recorded by `calculateClusterStatistics` with
size 0 and all averages 0; the ranking then gives it
`recencyScore = 1` and composite score exactly
`0.3·1 + 0.3·0 + 0.4·0 = 0.3`; and it still receives a rank and a segment
label, so it can outrank a non-empty cluster whose composite score is below
`0.3` (the concrete conjuncts: with one customer of recency 100, frequency
0, monetary 0 in cluster 0 and `k = 2`, the empty cluster 1 gets rank 1 and
the label "VIP" while the non-empty cluster 0, of composite score below
0.3, gets rank 2). -/
theorem emptyCluster_stats_and_ranking :
    (∀ (metrics : List RFMMetrics) (clusters : List ℕ) (k i : ℕ), i < k →
      (∀ c ∈ clusters, c ≠ i) →
      (calculateClusterStatistics metrics clusters k).getD i csDflt =
        ⟨i, 0, 0, 0, 0⟩) ∧
    (∀ i : ℕ, recencyScoreOf ⟨i, 0, 0, 0, 0⟩ = 1 ∧
      compositeScoreOf ⟨i, 0, 0, 0, 0⟩ = 3 / 10) ∧
    (∃ e ∈ rankClustersAndAssignLabels
        (calculateClusterStatistics [⟨"u1", 100, 0, 0, ""⟩] [0] 2),
      e.cluster_id = 1 ∧ e.rank = 1 ∧ e.segment_label = "VIP") ∧
    (∃ ne2 ∈ rankClustersAndAssignLabels
        (calculateClusterStatistics [⟨"u1", 100, 0, 0, ""⟩] [0] 2),
      ne2.cluster_id = 0 ∧ ne2.rank = 2 ∧ ne2.composite_score < 3 / 10) := by
  refine ⟨?_, ?_, ?_, ?_⟩
  · intro metrics clusters k i hik hnot
    have hempty : metricsOfCluster metrics clusters i = [] := by
      rw [metricsOfCluster, List.filterMap_eq_nil_iff]
      intro mc hmc
      rw [if_neg (hnot mc.2 (List.of_mem_zip hmc).2)]
    unfold calculateClusterStatistics
    rw [getD_map_lt _ (List.range k) i 0 csDflt (by simpa using hik)]
    have hri : (List.range k).getD i 0 = i := by
      rw [List.getD_eq_getElem _ 0 (by simpa using hik)]
      simp
    rw [hri, hempty]
    rfl
  · intro i
    constructor
    · rfl
    · show recencyScoreOf _ * (3 / 10) + (0 : ℚ) * (3 / 10) + (0 : ℚ) * (4 / 10) = 3 / 10
      norm_num [recencyScoreOf]
  · rw [rankedClusters_concrete_example]
    exact ⟨⟨1, 0, 0, 0, "VIP", 1, 3 / 10⟩, List.mem_cons_self _ _, rfl, rfl, rfl⟩
  · rw [rankedClusters_concrete_example]
    refine ⟨⟨0, 100, 0, 0, "Loyal", 2, 3 / 1000⟩, ?_, rfl, rfl, by norm_num⟩
    exact List.mem_cons_of_mem _ (List.mem_cons_self _ _)

theorem jsSum_foldl_none (l : List (Option ℝ)) :
    ∀ acc, (acc = none ∨ none ∈ l) →
      l.foldl
        (fun acc s =>
          match acc, s with
          | some a, some b => some (a + b)
          | _, _ => none)
        acc = none := by
  induction l with
  | nil =>
    rintro acc (rfl | h)
    · rfl
    · simp at h
  | cons x xs ih =>
    rintro acc (rfl | h)
    · exact ih none (Or.inl rfl)
    · rcases List.mem_cons.mp h with rfl | h'
      · apply ih
        left
        cases acc <;> rfl
      · exact ih _ (Or.inr h')

theorem jsSum_eq_none_of_mem {l : List (Option ℝ)} (h : none ∈ l) : jsSum l = none :=
  jsSum_foldl_none l (some 0) (Or.inr h)

theorem silhouettePoint_none_of_zero (data : List (List ℚ)) (clusters : List ℕ) (i : ℕ)
    (ha : silhouetteA data clusters i = 0) (hb : silhouetteB data clusters i = some 0) :
    silhouettePoint data clusters i = none := by
  unfold silhouettePoint
  rw [hb, ha]
  simp

/-- Skeleton shared by the C1 theorem and its counterexample: one `NaN`
per-point contribution makes the whole silhouette score `NaN`. -/
theorem calculateSilhouetteScore_none_aux (data : List (List ℚ)) (clusters : List ℕ) (i : ℕ)
    (hlen : 1 < data.length) (hi : i < data.length)
    (hpt : silhouettePoint data clusters i = none) :
    calculateSilhouetteScore data clusters = none := by
  unfold calculateSilhouetteScore
  rw [if_neg (by omega)]
  have hmem : none ∈ (List.range data.length).map (fun j => silhouettePoint data clusters j) := by
    rw [← hpt]
    exact List.mem_map_of_mem _ (List.mem_range.mpr hi)
  simp only [jsSum_eq_none_of_mem hmem, Option.map_none']

-- Concrete evaluations for the two coincident points `[0,0,0]`, `[0,0,0]`
-- split into clusters 0 and 1.

theorem euclideanDistance_zero_concrete :
    euclideanDistance [(0 : ℚ), 0, 0] [(0 : ℚ), 0, 0] = 0 := by
  unfold euclideanDistance
  have h : euclideanDistanceSq [(0 : ℚ), 0, 0] [(0 : ℚ), 0, 0] = 0 := by
    norm_num [euclideanDistanceSq, List.range_succ]
  rw [h]
  simp

theorem silhouetteA_concrete :
    silhouetteA [[(0 : ℚ), 0, 0], [(0 : ℚ), 0, 0]] [0, 1] 0 = 0 := by
  unfold silhouetteA
  norm_num [List.range_succ, List.filter]

theorem silhouetteB_concrete :
    silhouetteB [[(0 : ℚ), 0, 0], [(0 : ℚ), 0, 0]] [0, 1] 0 = some 0 := by
  unfold silhouetteB otherClustersOf minWithInf silhouetteBOf
  norm_num [List.range_succ, List.filter, List.dedup_cons_of_not_mem, List.dedup_cons_of_mem,
    euclideanDistance_zero_concrete]

/-- C1, counterexample: on the two coincident points `[0,0,0]`, `[0,0,0]`
assigned to clusters 0 and 1 (so `a(0) = 0` and `b(0) = 0`),
`calculateSilhouetteScore` returns `NaN` (`none`), not a well-defined
number — the source has no guard for the 0/0 case. -/
theorem calculateSilhouetteScore_nan_counterexample :
    calculateSilhouetteScore [[(0 : ℚ), 0, 0], [(0 : ℚ), 0, 0]] [0, 1] = none :=
  calculateSilhouetteScore_none_aux _ [0, 1] 0 (by norm_num) (by norm_num)
    (silhouettePoint_none_of_zero _ _ _ silhouetteA_concrete silhouetteB_concrete)

/-- C1, amended.  The source defines the per-point silhouette as
`(b - a) / Math.max(a, b)` with no guard: for a point whose intra-cluster
mean distance `a(i)` and nearest-other-cluster mean distance `b(i)` are both
`0` the contribution is `0/0 = NaN`, and `NaN` propagates through the sum,
so the overall score returned by `calculateSilhouetteScore` is then `NaN`
(`none`), not `0` and not any well-defined number. -/
theorem calculateSilhouetteScore_nan_of_zero_a_b (data : List (List ℚ)) (clusters : List ℕ)
    (i : ℕ) (hlen : 1 < data.length) (hi : i < data.length)
    (ha : silhouetteA data clusters i = 0) (hb : silhouetteB data clusters i = some 0) :
    calculateSilhouetteScore data clusters = none :=
  calculateSilhouetteScore_none_aux data clusters i hlen hi
    (silhouettePoint_none_of_zero data clusters i ha hb)

/-- Witness for the amended C1: the hypotheses hold at the concrete
two-point input and the score is `NaN` there. -/
theorem calculateSilhouetteScore_nan_of_zero_a_b_witness :
    silhouetteA [[(0 : ℚ), 0, 0], [(0 : ℚ), 0, 0]] [0, 1] 0 = 0 ∧
    calculateSilhouetteScore [[(0 : ℚ), 0, 0], [(0 : ℚ), 0, 0]] [0, 1] = none :=
  ⟨silhouetteA_concrete,
    calculateSilhouetteScore_nan_of_zero_a_b [[(0 : ℚ), 0, 0], [(0 : ℚ), 0, 0]] [0, 1] 0
      (by norm_num) (by norm_num) silhouetteA_concrete silhouetteB_concrete⟩

/-- C6.  On an empty metrics list `performEnhancedClustering` (and
`performKMeansClustering`) returns the explicit empty result — empty
`clusteredMetrics`, empty `centers`, zero evaluation metrics (silhouette 0,
WCSS 0, 0 iterations) and zero percentile statistics — by the early-return
guard, so no normalization or averaging step (and hence no division by an
empty population) is ever evaluated. -/
theorem emptyPopulation_empty_result (k : ℕ) (rng rng2 : Rand) :
    performEnhancedClustering [] rng = getEmptyResult 0 ∧
    performKMeansClustering [] k none rng2 = getEmptyResult k ∧
    performKMeansClusteringR [] k none rng2 = (getEmptyResult k, rng2) ∧
    getEmptyResult k =
      ⟨[], [], ⟨some 0, 0, 0⟩, k, ⟨⟨0, 0, 0⟩, ⟨0, 0, 0⟩, ⟨0, 0, 0⟩⟩⟩ := by
  refine ⟨rfl, rfl, rfl, rfl⟩

-- ### Frame property of `createClusteredMetrics` (C10)

theorem createClusteredMetricsGo_length (clusters : List ℕ)
    (rankedClusters : List ClusterCenter) (metrics : List RFMMetrics) :
    ∀ index, (createClusteredMetricsGo clusters rankedClusters index metrics).length =
      metrics.length := by
  induction metrics with
  | nil =>
    intro index
    rfl
  | cons m ms ih =>
    intro index
    show (createClusteredMetricsGo clusters rankedClusters (index + 1) ms).length + 1 =
      ms.length + 1
    rw [ih (index + 1)]

theorem createClusteredMetricsGo_getD (clusters : List ℕ)
    (rankedClusters : List ClusterCenter) (metrics : List RFMMetrics) :
    ∀ index i, i < metrics.length →
      (createClusteredMetricsGo clusters rankedClusters index metrics).getD i cmDflt =
        ⟨(metrics.getD i mDflt).user_id, (metrics.getD i mDflt).recency,
          (metrics.getD i mDflt).frequency, (metrics.getD i mDflt).monetary,
          (metrics.getD i mDflt).rfm_score, clusters.getD (index + i) 0,
          segmentOrFallback rankedClusters (clusters.getD (index + i) 0)⟩ := by
  induction metrics with
  | nil =>
    intro index i hi
    simp at hi
  | cons m ms ih =>
    intro index i hi
    cases i with
    | zero => rfl
    | succ i' =>
      show (createClusteredMetricsGo clusters rankedClusters (index + 1) ms).getD i' cmDflt = _
      rw [ih (index + 1) i' (by simpa using hi)]
      have harith : index + 1 + i' = index + (i' + 1) := by omega
      rw [harith]
      rfl

/-- C10.  `performKMeansClustering`'s returned `clusteredMetrics` has exactly
one entry per input metric, in input order, and each entry's `user_id`,
`recency`, `frequency`, `monetary` and `rfm_score` are copied unchanged from
the corresponding input metric — the entry only adds the `cluster_id` and
`segment` fields (shown: the entry is exactly the input record extended with
the run's assignment for that index and its segment label). -/
theorem performKMeansClustering_frame (metrics : List RFMMetrics) (k : ℕ)
    (ds : Option DataStats) (rng : Rand) :
    (performKMeansClustering metrics k ds rng).clusteredMetrics.length = metrics.length ∧
    (∀ i, i < metrics.length →
      ((performKMeansClustering metrics k ds rng).clusteredMetrics.getD i cmDflt).user_id =
          (metrics.getD i mDflt).user_id ∧
        ((performKMeansClustering metrics k ds rng).clusteredMetrics.getD i cmDflt).recency =
          (metrics.getD i mDflt).recency ∧
        ((performKMeansClustering metrics k ds rng).clusteredMetrics.getD i cmDflt).frequency =
          (metrics.getD i mDflt).frequency ∧
        ((performKMeansClustering metrics k ds rng).clusteredMetrics.getD i cmDflt).monetary =
          (metrics.getD i mDflt).monetary ∧
        ((performKMeansClustering metrics k ds rng).clusteredMetrics.getD i cmDflt).rfm_score =
          (metrics.getD i mDflt).rfm_score) := by
  by_cases hempty : metrics.isEmpty
  · have hnil : metrics = [] := List.isEmpty_iff.mp hempty
    subst hnil
    refine ⟨rfl, ?_⟩
    intro i hi
    simp at hi
  · have hres : (performKMeansClustering metrics k ds rng).clusteredMetrics =
        createClusteredMetrics metrics
          (runKMeansAlgorithm (normalizeData metrics) k rng).1.clusters
          (rankClustersAndAssignLabels
            (calculateClusterStatistics metrics
              (runKMeansAlgorithm (normalizeData metrics) k rng).1.clusters k)) := by
      unfold performKMeansClustering performKMeansClusteringR
      rw [if_neg hempty]
    rw [hres]
    unfold createClusteredMetrics
    constructor
    · exact createClusteredMetricsGo_length _ _ _ 0
    · intro i hi
      rw [createClusteredMetricsGo_getD _ _ _ 0 i hi]
      exact ⟨rfl, rfl, rfl, rfl, rfl⟩

-- ### Elbow-scan lemmas (C2)

theorem elbowGo_const (w : List ℚ) (minK : ℕ) :
    ∀ fuel i maxImp opt, (∀ j, i ≤ j → j < i + fuel → improvementRate w j ≤ maxImp) →
      elbowGo w minK fuel i maxImp opt = opt := by
  intro fuel
  induction fuel with
  | zero =>
    intro i maxImp opt h
    rfl
  | succ fuel ih =>
    intro i maxImp opt h
    unfold elbowGo
    rw [if_neg (not_lt.mpr (h i (le_refl i) (by omega)))]
    exact ih (i + 1) maxImp opt (fun j hj1 hj2 => h j (by omega) (by omega))

theorem elbowGo_cases (w : List ℚ) (minK : ℕ) :
    ∀ fuel i maxImp opt,
      (elbowGo w minK fuel i maxImp opt = opt ∧
        ∀ j, i ≤ j → j < i + fuel → improvementRate w j ≤ maxImp) ∨
      (∃ j, i ≤ j ∧ j < i + fuel ∧ elbowGo w minK fuel i maxImp opt = minK + j ∧
        maxImp < improvementRate w j ∧
        ∀ j', i ≤ j' → j' < i + fuel → improvementRate w j' ≤ improvementRate w j) := by
  intro fuel
  induction fuel with
  | zero =>
    intro i maxImp opt
    left
    exact ⟨rfl, fun j hj1 hj2 => absurd (lt_of_le_of_lt hj1 hj2) (by omega)⟩
  | succ fuel ih =>
    intro i maxImp opt
    by_cases hlt : maxImp < improvementRate w i
    · have hgo : elbowGo w minK (fuel + 1) i maxImp opt =
          elbowGo w minK fuel (i + 1) (improvementRate w i) (minK + i) := by
        show (if maxImp < improvementRate w i then
            elbowGo w minK fuel (i + 1) (improvementRate w i) (minK + i)
          else elbowGo w minK fuel (i + 1) maxImp opt) = _
        rw [if_pos hlt]
      rcases ih (i + 1) (improvementRate w i) (minK + i) with
        ⟨heq, hall⟩ | ⟨j, hj1, hj2, heq, hjgt, hjmax⟩
      · right
        refine ⟨i, le_refl i, by omega, by rw [hgo, heq], hlt, ?_⟩
        intro j' h1 h2
        rcases eq_or_lt_of_le h1 with rfl | h1'
        · exact le_refl _
        · exact hall j' (by omega) (by omega)
      · right
        refine ⟨j, by omega, by omega, by rw [hgo, heq], lt_trans hlt hjgt, ?_⟩
        intro j' h1 h2
        rcases eq_or_lt_of_le h1 with rfl | h1'
        · exact le_of_lt hjgt
        · exact hjmax j' (by omega) (by omega)
    · have hgo : elbowGo w minK (fuel + 1) i maxImp opt =
          elbowGo w minK fuel (i + 1) maxImp opt := by
        show (if maxImp < improvementRate w i then
            elbowGo w minK fuel (i + 1) (improvementRate w i) (minK + i)
          else elbowGo w minK fuel (i + 1) maxImp opt) = _
        rw [if_neg hlt]
      rcases ih (i + 1) maxImp opt with ⟨heq, hall⟩ | ⟨j, hj1, hj2, heq, hjgt, hjmax⟩
      · left
        refine ⟨by rw [hgo, heq], ?_⟩
        intro j h1 h2
        rcases eq_or_lt_of_le h1 with rfl | h1'
        · exact not_lt.mp hlt
        · exact hall j (by omega) (by omega)
      · right
        refine ⟨j, by omega, by omega, by rw [hgo, heq], hjgt, ?_⟩
        intro j' h1 h2
        rcases eq_or_lt_of_le h1 with rfl | h1'
        · exact le_trans (not_lt.mp hlt) (le_of_lt hjgt)
        · exact hjmax j' (by omega) (by omega)

theorem elbowSelect_of_nonpos (w : List ℚ) (minK : ℕ)
    (h : ∀ i, 1 ≤ i → i + 1 < w.length → improvementRate w i ≤ 0) :
    elbowSelect minK w = minK := by
  unfold elbowSelect
  apply elbowGo_const
  intro j hj1 hj2
  exact h j hj1 (by omega)

theorem elbowSelect_argmax (w : List ℚ) (minK : ℕ) (i₀ : ℕ) (h1 : 1 ≤ i₀)
    (h2 : i₀ + 1 < w.length) (hpos : 0 < improvementRate w i₀) :
    ∃ j, 1 ≤ j ∧ j + 1 < w.length ∧ elbowSelect minK w = minK + j ∧
      ∀ i, 1 ≤ i → i + 1 < w.length → improvementRate w i ≤ improvementRate w j := by
  unfold elbowSelect
  rcases elbowGo_cases w minK (w.length - 1 - 1) 1 0 minK with
    ⟨heq, hall⟩ | ⟨j, hj1, hj2, heq, hjgt, hjmax⟩
  · exact absurd hpos (not_lt.mpr (hall i₀ h1 (by omega)))
  · exact ⟨j, hj1, by omega, heq, fun i hi1 hi2 => hjmax i hi1 (by omega)⟩

theorem sweepWCSS_length (metrics : List RFMMetrics) :
    ∀ (ks : List ℕ) (rng : Rand), (sweepWCSS metrics ks rng).1.length = ks.length := by
  intro ks
  induction ks with
  | nil =>
    intro rng
    rfl
  | cons k ks ih =>
    intro rng
    show ((performKMeansClusteringR metrics k (some (calculateDataStats metrics))
        rng).1.evaluationMetrics.wcss ::
      (sweepWCSS metrics ks (performKMeansClusteringR metrics k
        (some (calculateDataStats metrics)) rng).2).1).length = ks.length + 1
    rw [List.length_cons, ih]

theorem candidateKs_mem (n kk : ℕ) : kk ∈ candidateKs n ↔ 2 ≤ kk ∧ kk ≤ min 8 (n / 2) := by
  unfold candidateKs
  rw [List.mem_range'_1]
  omega

/-- C2.  `findOptimalK` sweeps candidate `K` from 2 up to
`min(8, floor(customerCount / 2))` inclusive (first two conjuncts: the
candidate list is characterized by that range, and for 6 customers it is
exactly `[2, 3]`), records one WCSS per candidate (one sweep entry per
candidate `K`), and selects by the elbow scan: if no interior candidate has
`improvement − nextImprovement > 0` the result is the minimum `K = 2`, and
if some interior candidate does, the result is `2 + j` for an interior
index `j` whose `improvement − nextImprovement` is maximal among all
interior candidates. -/
theorem findOptimalK_spec (metrics : List RFMMetrics) (rng : Rand) :
    (findOptimalK metrics rng).1 =
      elbowSelect 2 (sweepWCSS metrics (candidateKs metrics.length) rng).1 ∧
    (∀ kk, kk ∈ candidateKs metrics.length ↔
      2 ≤ kk ∧ kk ≤ min 8 (metrics.length / 2)) ∧
    (metrics.length = 6 → candidateKs metrics.length = [2, 3]) ∧
    (∀ (ks : List ℕ) (rng' : Rand), (sweepWCSS metrics ks rng').1.length = ks.length) ∧
    (∀ w : List ℚ, (∀ i, 1 ≤ i → i + 1 < w.length → improvementRate w i ≤ 0) →
      elbowSelect 2 w = 2) ∧
    (∀ (w : List ℚ) (i₀ : ℕ), 1 ≤ i₀ → i₀ + 1 < w.length → 0 < improvementRate w i₀ →
      ∃ j, 1 ≤ j ∧ j + 1 < w.length ∧ elbowSelect 2 w = 2 + j ∧
        ∀ i, 1 ≤ i → i + 1 < w.length → improvementRate w i ≤ improvementRate w j) := by
  refine ⟨rfl, fun kk => candidateKs_mem metrics.length kk, ?_, sweepWCSS_length metrics,
    fun w h => elbowSelect_of_nonpos w 2 h,
    fun w i₀ h1 h2 h3 => elbowSelect_argmax w 2 i₀ h1 h2 h3⟩
  intro h6
  rw [h6]
  rfl

theorem calculateCustomerMetrics_frequency (orders : List Order) (currentDate : ℤ) :
    1 ≤ (calculateCustomerMetrics orders currentDate).frequency :=
  le_max_left _ _

theorem calculateCustomerMetrics_recency_nonneg (orders : List Order) (currentDate : ℤ) :
    0 ≤ (calculateCustomerMetrics orders currentDate).recency :=
  le_max_left _ _

theorem calculateCustomerMetrics_monetary_nonneg (orders : List Order) (currentDate : ℤ) :
    0 ≤ (calculateCustomerMetrics orders currentDate).monetary :=
  le_max_left _ _

theorem calculateCustomerMetrics_future_clamped (orders : List Order) (currentDate : ℤ)
    (h : currentDate < lastOrderTime orders) :
    (calculateCustomerMetrics orders currentDate).recency = 0 := by
  have hd : (0 : ℤ) ≤ millisPerDay := by decide
  have hfd : Int.fdiv (currentDate - lastOrderTime orders) millisPerDay ≤ 0 := by
    rw [Int.fdiv_eq_ediv _ hd]
    calc (currentDate - lastOrderTime orders) / millisPerDay ≤ 0 / millisPerDay :=
          Int.ediv_le_ediv (by decide) (by omega)
      _ = 0 := Int.zero_ediv _

  show max 0 ((Int.fdiv (currentDate - lastOrderTime orders) millisPerDay : ℤ) : ℚ) = 0
  rw [max_eq_left]
  exact_mod_cast hfd

/-- C7.  Every RFM record produced by the aggregator has frequency ≥ 1,
recency ≥ 0 and monetary ≥ 0; a customer whose latest order has a future
timestamp gets recency clamped to exactly 0; and only customers with at
least one matching order appear: every output record's `user_id` is carried
by some input order (so a customer with zero eligible orders never appears
in the output). -/
theorem aggregator_invariants (customers : List Customer) (orders : List Order)
    (currentDate : ℤ) :
    (∀ r ∈ calculateMetricsForCustomers customers orders currentDate,
      1 ≤ r.frequency ∧ 0 ≤ r.recency ∧ 0 ≤ r.monetary ∧
        ∃ o ∈ orders, o.user_id = some r.user_id) ∧
    (∀ (os : List Order) (now : ℤ), now < lastOrderTime os →
      (calculateCustomerMetrics os now).recency = 0) := by
  constructor
  · intro r hr
    rw [calculateMetricsForCustomers, List.mem_filterMap] at hr
    obtain ⟨customer, _, heq⟩ := hr
    rcases hid : customer.id with _ | cid
    · rw [hid] at heq
      simp at heq
    · rw [hid] at heq
      dsimp only at heq
      by_cases hcid : cid = ""
      · rw [if_pos hcid] at heq
        simp at heq
      · rw [if_neg hcid] at heq
        by_cases hord : (orders.filter (fun order => order.user_id == some cid)).isEmpty
        · rw [if_pos hord] at heq
          simp at heq
        · rw [if_neg hord] at heq
          obtain rfl := Option.some.inj heq
          refine ⟨?_, ?_, ?_, ?_⟩
          · exact calculateCustomerMetrics_frequency
              (orders.filter (fun order => order.user_id == some cid)) currentDate
          · exact calculateCustomerMetrics_recency_nonneg
              (orders.filter (fun order => order.user_id == some cid)) currentDate
          · exact calculateCustomerMetrics_monetary_nonneg
              (orders.filter (fun order => order.user_id == some cid)) currentDate
          · obtain ⟨o, ho⟩ := List.exists_mem_of_ne_nil
              (orders.filter (fun order => order.user_id == some cid))
              (fun hnil => hord (by rw [hnil]; rfl))
            have ho' := List.mem_filter.mp ho
            exact ⟨o, ho'.1, by simpa using ho'.2⟩
  · intro os now h
    exact calculateCustomerMetrics_future_clamped os now h

end Seg
